import Mathlib

/-!
Verification of the resume-formatter web service (src/app.py).

The file shallowly embeds the repository's own logic: extension dispatch in
load_resume, markdown-fence removal and the single JSON-parse attempt in
convert_to_json, output-path construction and overwriting in
generate_company_resume, and the per-file loop, skip condition, zip packaging
and 400 check in upload_resume.  External effects (the PDF/DOCX loaders, the
language-model API, the stdlib JSON parser, HTML rendering) are modelled by an
environment of total functions; the output directory is a map from path to the
rendered document.
-/

namespace ResumeApp

/-! ### Python string primitives used by app.py -/

/-- The backtick character, written by code point. -/
def btick : Char := Char.ofNat 96

/-- Python's str.strip() whitespace set: space, tab, newline, carriage return,
vertical tab, form feed. -/
def pyWhitespace (c : Char) : Bool :=
  c == ' ' || c == '\t' || c == '\n' || c == '\r' || c == Char.ofNat 11 || c == Char.ofNat 12

/-- Python str.strip(): drop whitespace at both ends. -/
def pyStrip (s : String) : String :=
  String.mk (((s.data.dropWhile pyWhitespace).reverse.dropWhile pyWhitespace).reverse)

/-- Python str.lower() (ASCII case folding, which is all the code needs). -/
def pyLower (s : String) : String :=
  String.mk (s.data.map Char.toLower)

/-- Index of the last occurrence of a character, as Python str.rfind. -/
def lastIndexOf (c : Char) (cs : List Char) : Option Nat :=
  match cs.reverse.findIdx? (fun d => d == c) with
  | none => none
  | some i => some (cs.length - 1 - i)

/-- os.path.splitext (posix): split at the last dot of the final path
component, except that leading dots of the basename never start an
extension. -/
def splitext (p : String) : String × String :=
  let cs := p.data
  let sepIdx : Int := match lastIndexOf '/' cs with | some i => (i : Int) | none => -1
  let dotIdx : Int := match lastIndexOf '.' cs with | some i => (i : Int) | none => -1
  if sepIdx < dotIdx then
    if (List.range cs.length).any
        (fun k => decide (sepIdx < (k : Int)) && decide ((k : Int) < dotIdx)
          && (cs.getD k '.' != '.'))
    then (String.mk (cs.take dotIdx.toNat), String.mk (cs.drop dotIdx.toNat))
    else (p, "")
  else (p, "")

/-- Line 71 of app.py: the lowercased extension of a path. -/
def extOf (p : String) : String := pyLower (splitext p).2

/-- os.path.join (posix) for the two-argument calls made by app.py. -/
def pjoin (a b : String) : String :=
  if b.data.take 1 = ['/'] then b
  else if a.data = [] ∨ a.data.getLast? = some '/' then a ++ b
  else a ++ "/" ++ b

/-- The suffix of a character list after its last slash. -/
def afterLastSlash : List Char → List Char
  | [] => []
  | c :: rest =>
    if '/' ∈ rest then afterLastSlash rest
    else if c = '/' then rest else c :: rest

/-- os.path.basename (posix): everything after the last slash. -/
def basename (p : String) : String := String.mk (afterLastSlash p.data)

/-- Python substring containment, as used by the expression
  s1 in s2  on two strings. -/
def hasSubstr (pat : List Char) : List Char → Bool
  | [] => pat.isEmpty
  | c :: rest => pat.isPrefixOf (c :: rest) || hasSubstr pat rest

/-! ### The fence-stripping regex of convert_to_json

re.sub removes, scanning left to right, each occurrence of three backticks
optionally followed by the four letters json (the alternation in the pattern
tries the json-suffixed form first at every position, and the second
alternative is subsumed by the first). -/

/-- Does the list start with a backtick? -/
def headTick : List Char → Bool
  | [] => false
  | c :: _ => c == btick

/-- Does the list start with two backticks? -/
def twoTicks : List Char → Bool
  | a :: b :: _ => a == btick && b == btick
  | _ => false

/-- Does the list start with the four letters json? -/
def json4 : List Char → Bool
  | a :: b :: c :: d :: _ => a == 'j' && (b == 's' && (c == 'o' && d == 'n'))
  | _ => false

/-- Fuelled scanner for the fence pattern: at each position, when three
backticks start here, remove them together with a directly following json;
otherwise keep the character and move on.  Each step consumes at least one
character, so fuel equal to the length suffices. -/
def sfGo : Nat → List Char → List Char
  | 0, cs => cs
  | _ + 1, [] => []
  | fuel + 1, c :: rest =>
    if c == btick && twoTicks rest then
      if json4 (rest.drop 2) then sfGo fuel (rest.drop 6) else sfGo fuel (rest.drop 2)
    else c :: sfGo fuel rest

/-- Left-to-right removal of every match of the pattern: three backticks,
optionally followed by the letters json. -/
def stripFences (cs : List Char) : List Char := sfGo cs.length cs

/-- Is a run of three consecutive backticks (an unremoved fence) present? -/
def hasTicks3 : List Char → Bool
  | a :: b :: c :: rest => (a == btick && (b == btick && c == btick)) || hasTicks3 (b :: c :: rest)
  | _ => false

/-! ### Data model -/

/-- A JSON value, the result type of json.loads. -/
inductive Json where
  | null : Json
  | bool (b : Bool) : Json
  | num (n : Int) : Json
  | str (s : String) : Json
  | arr (xs : List Json) : Json
  | obj (kvs : List (String × Json)) : Json

/-- An exception escaping a handler (Flask then answers 500). -/
inductive PyError where
  | valueError (msg : String) : PyError
  | typeError : PyError
deriving DecidableEq

/-- The external world: the two document loaders (applied to the saved file's
path), the language-model chain (prompt, model and output parser of lines
86-88, mapping the resume text to the response string), and the stdlib JSON
parser (none models a JSONDecodeError). -/
structure Env where
  pdfPages : String → List String
  docxPages : String → List String
  llm : String → String
  jloads : String → Option Json

/-- A rendered PDF as written by weasyprint: fully determined by the three
values the fixed HTML template is rendered with (line 104). -/
structure PdfDoc where
  name : String
  contact : String
  data : Json

/-- The output directory: contents of each path, if the file exists. -/
def FS : Type := String → Option PdfDoc

/-- One entry of request.files.getlist, carrying the client-sent filename. -/
structure UFile where
  filename : String

/-- A POST /upload request: the file list and the form fields. -/
structure Request where
  files : List UFile
  form : List (String × String)

/-- An HTTP response body: a jsonify object or a sent zip archive with its
download name and its entries (archive name paired with the file's content as
read from disk at write time). -/
inductive Body where
  | jsonBody (j : Json) : Body
  | zipBody (download_name : String) (entries : List (String × Option PdfDoc)) : Body

/-- An HTTP response: status code and body. -/
structure Response where
  status : Nat
  body : Body

/-! ### The program (src/app.py) -/

/-- Which loader class lines 72-77 pick. -/
inductive LoaderKind where
  | pypdf : LoaderKind
  | docx2txt : LoaderKind
deriving DecidableEq

/-- Lines 71-77 of load_resume: lowercase the extension and select the loader,
raising ValueError on anything unsupported. -/
def selectLoader (file_path : String) : Except PyError LoaderKind :=
  let ext := extOf file_path
  if ext = ".pdf" then Except.ok LoaderKind.pypdf
  else if ext = ".docx" ∨ ext = ".doc" then Except.ok LoaderKind.docx2txt
  else Except.error (PyError.valueError "Unsupported file type.")

/-- load_resume (lines 70-80): select the loader for the path, load the
pages/paragraphs, and join their page_content with newlines. -/
def load_resume (env : Env) (file_path : String) : Except PyError String := do
  let k ← selectLoader file_path
  let docs := match k with
    | LoaderKind.pypdf => env.pdfPages file_path
    | LoaderKind.docx2txt => env.docxPages file_path
  Except.ok (String.intercalate "\n" docs)

/-- The fence-removal step of line 90 on a string. -/
def fencesStripped (response : String) : String := String.mk (stripFences response.data)

/-- Line 90 in full: remove fences, then strip whitespace. -/
def cleanedResponse (response : String) : String := pyStrip (fencesStripped response)

/-- convert_to_json (lines 85-95): invoke the chain, clean the response, try
json.loads once; on failure return the sentinel object carrying the raw
(uncleaned) response. -/
def convert_to_json (env : Env) (resume_text : String) : Json :=
  let response := env.llm resume_text
  let cleaned := cleanedResponse response
  match env.jloads cleaned with
  | some j => j
  | none => Json.obj [("error", Json.str "Invalid JSON from LLM"), ("raw", Json.str response)]

/-- Whether a JSON array element equals the Python string "error" under ==. -/
def isErrorStr : Json → Bool
  | Json.str s => s == "error"
  | _ => false

/-- The Python expression  "error" in resume_json  (line 135): key membership
on a dict, element membership on a list, substring test on a string, and a
TypeError on any non-container. -/
def pyContainsStrError : Json → Except PyError Bool
  | Json.obj kvs => Except.ok (kvs.any (fun kv => kv.1 == "error"))
  | Json.arr xs => Except.ok (xs.any isErrorStr)
  | Json.str s => Except.ok (hasSubstr "error".data s.data)
  | _ => Except.error PyError.typeError

/-- generate_company_resume (lines 100-108): render the template with the
name, contact and data, and write the PDF to
output/<stem of filename>_formatted.pdf, overwriting whatever was there.
Returns the updated output directory and the path written. -/
def generate_company_resume (fs : FS) (data_json : Json) (name contact filename : String) :
    FS × String :=
  let pdf_path := pjoin "output" ((splitext filename).1 ++ "_formatted.pdf")
  (fun p => if p = pdf_path then some (PdfDoc.mk name contact data_json) else fs p, pdf_path)

/-- werkzeug form.get(key, default): first value for the key, else the
default. -/
def formGet (form : List (String × String)) (key dflt : String) : String :=
  match form.lookup key with
  | some v => v
  | none => dflt

/-- The per-file loop of lines 128-139: save the upload (to the uploads
directory, which no later observation reads, so it is not tracked), load the
text, convert, skip when "error" occurs in the result, otherwise generate the
PDF and record its path.  Exceptions abort the whole loop. -/
def processFiles (env : Env) (name contact : String) :
    FS → List UFile → Except PyError (FS × List String)
  | fs, [] => Except.ok (fs, [])
  | fs, f :: rest => do
    let text ← load_resume env (pjoin "uploads" f.filename)
    let resume_json := convert_to_json env text
    let skip ← pyContainsStrError resume_json
    if skip then processFiles env name contact fs rest
    else
      let res := generate_company_resume fs resume_json name contact f.filename
      let more ← processFiles env name contact res.1 rest
      Except.ok (more.1, res.2 :: more.2)

/-- upload_resume (lines 118-153): read the form fields with their defaults,
answer 400 on an empty file list, otherwise run the loop, then zip every
recorded path (entry named by basename, content read back from the output
directory) and send the archive. -/
def upload_resume (env : Env) (fs : FS) (req : Request) : Except PyError (FS × Response) :=
  let name := formGet req.form "name" "Candidate"
  let contact := formGet req.form "contact" "example@email.com"
  if req.files.isEmpty then
    Except.ok (fs, Response.mk 400 (Body.jsonBody (Json.obj [("error", Json.str "No files uploaded")])))
  else do
    let r ← processFiles env name contact fs req.files
    Except.ok (r.1, Response.mk 200 (Body.zipBody "Formatted_Resumes.zip"
      (r.2.map (fun p => (basename p, r.1 p)))))

/-! ### Derived per-file observables (not themselves in the source; they name
the value the loop computes for one file, for use in theorem statements) -/

/-- The stem of an uploaded file's name. -/
def stemOf (f : UFile) : String := (splitext f.filename).1

/-- The output path the loop would write for an uploaded file. -/
def outPath (f : UFile) : String := pjoin "output" (stemOf f ++ "_formatted.pdf")

/-- The JSON value the loop computes for one file before the skip test. -/
def fileJson (env : Env) (f : UFile) : Except PyError Json :=
  (load_resume env (pjoin "uploads" f.filename)).map (convert_to_json env)

/-- Whether the loop produces a PDF for the file: it loads, the skip test
evaluates, and finds no occurrence of "error". -/
def producesB (env : Env) (f : UFile) : Bool :=
  match fileJson env f with
  | Except.ok j =>
    match pyContainsStrError j with
    | Except.ok b => !b
    | Except.error _ => false
  | Except.error _ => false

/-! ### Behaviour of the fence-stripping step -/

/-- The scanner ignores any surplus fuel beyond the input's length. -/
theorem sfGo_fuel_inv :
    ∀ f1 : Nat, ∀ cs : List Char, ∀ f2 : Nat,
      cs.length ≤ f1 → cs.length ≤ f2 → sfGo f1 cs = sfGo f2 cs := by
  intro f1
  induction f1 with
  | zero =>
    intro cs f2 h1 _
    have hnil : cs = [] := List.eq_nil_of_length_eq_zero (Nat.le_zero.mp h1)
    subst hnil
    cases f2 <;> rfl
  | succ f ih =>
    intro cs f2 h1 h2
    rcases cs with _ | ⟨c, rest⟩
    · cases f2 <;> rfl
    · rcases f2 with _ | f2'
      · simp at h2
      · have hr1 : rest.length ≤ f := by simpa using h1
        have hr2 : rest.length ≤ f2' := by simpa using h2
        simp only [sfGo]
        cases hb : (c == btick && twoTicks rest) with
        | false =>
          simp only [Bool.false_eq_true, if_false]
          rw [ih rest f2' hr1 hr2]
        | true =>
          simp only [if_true]
          cases hj : json4 (rest.drop 2) with
          | false =>
            simp only [Bool.false_eq_true, if_false]
            exact ih (rest.drop 2) f2' (by simp; omega) (by simp; omega)
          | true =>
            simp only [if_true]
            exact ih (rest.drop 6) f2' (by simp; omega) (by simp; omega)

theorem twoTicks_cons (x : Char) (l : List Char) :
    twoTicks (x :: l) = ((x == btick) && headTick l) := by
  cases l <;> simp [twoTicks, headTick]

theorem twoTicks_false_of_headTick_false {l : List Char} (h : headTick l = false) :
    twoTicks l = false := by
  rcases l with _ | ⟨a, _ | ⟨b, r⟩⟩ <;> simp [headTick, twoTicks] at * <;> simp [h]

theorem hasTicks3_cons (x : Char) (l : List Char) :
    hasTicks3 (x :: l) = (((x == btick) && twoTicks l) || hasTicks3 l) := by
  rcases l with _ | ⟨a, _ | ⟨b, r⟩⟩ <;> simp [hasTicks3, twoTicks]

theorem twoTicks_eq_true {l : List Char} (h : twoTicks l = true) :
    ∃ r, l = btick :: btick :: r := by
  rcases l with _ | ⟨a, _ | ⟨b, r⟩⟩ <;> simp [twoTicks] at h
  exact ⟨r, by rw [h.1, h.2]⟩

theorem json4_eq_true {l : List Char} (h : json4 l = true) :
    ∃ r, l = 'j' :: 's' :: 'o' :: 'n' :: r := by
  rcases l with _ | ⟨a, _ | ⟨b, _ | ⟨c, _ | ⟨d, r⟩⟩⟩⟩ <;> simp [json4] at h
  exact ⟨r, by rw [h.1, h.2.1, h.2.2.1, h.2.2.2]⟩

theorem stripFences_cons_keep (c : Char) (rest : List Char)
    (h : (c == btick && twoTicks rest) = false) :
    stripFences (c :: rest) = c :: stripFences rest := by
  simp only [stripFences, List.length_cons, sfGo, h, Bool.false_eq_true, if_false]

theorem stripFences_trip_json (rest : List Char) :
    stripFences (btick :: btick :: btick :: 'j' :: 's' :: 'o' :: 'n' :: rest) =
      stripFences rest := by
  simp only [stripFences, List.length_cons, sfGo, twoTicks, json4, List.drop,
    beq_self_eq_true, Bool.and_self, Bool.and_true, if_true]
  exact sfGo_fuel_inv _ rest _ (by omega) le_rfl

theorem stripFences_trip_nojson (rest : List Char) (h : json4 rest = false) :
    stripFences (btick :: btick :: btick :: rest) = stripFences rest := by
  simp only [stripFences, List.length_cons, sfGo, twoTicks, List.drop,
    beq_self_eq_true, Bool.and_self, Bool.and_true, if_true,
    h, Bool.false_eq_true, if_false]
  exact sfGo_fuel_inv _ rest _ (by omega) le_rfl

theorem stripFences_headTick (rest : List Char) (h : headTick rest = false) :
    headTick (stripFences rest) = false := by
  rcases rest with _ | ⟨x, r2⟩
  · simp [stripFences, sfGo, headTick]
  · have hx : (x == btick) = false := by simpa [headTick] using h
    rw [stripFences_cons_keep x r2 (by simp [hx])]
    simpa [headTick] using hx

theorem stripFences_twoTicks (rest : List Char) (h : twoTicks rest = false) :
    twoTicks (stripFences rest) = false := by
  rcases rest with _ | ⟨x, r2⟩
  · simp [stripFences, sfGo, twoTicks]
  · rw [twoTicks_cons] at h
    cases hx : (x == btick) with
    | false =>
      rw [stripFences_cons_keep x r2 (by simp [hx])]
      rw [twoTicks_cons]
      simp [hx]
    | true =>
      have hh : headTick r2 = false := by simpa [hx] using h
      rw [stripFences_cons_keep x r2
        (by simp [hx, twoTicks_false_of_headTick_false hh])]
      rw [twoTicks_cons]
      simp [stripFences_headTick r2 hh]

theorem stripFences_noTriple_aux :
    ∀ n, ∀ cs : List Char, cs.length ≤ n → hasTicks3 (stripFences cs) = false := by
  intro n
  induction n with
  | zero =>
    intro cs h
    have hnil : cs = [] := List.eq_nil_of_length_eq_zero (Nat.le_zero.mp h)
    subst hnil
    simp [stripFences, hasTicks3]
  | succ n ih =>
    intro cs hlen
    rcases cs with _ | ⟨c, rest⟩
    · simp [stripFences, hasTicks3]
    · have hlrest : rest.length ≤ n := by simpa using hlen
      cases hb : (c == btick && twoTicks rest) with
      | false =>
        rw [stripFences_cons_keep c rest hb, hasTicks3_cons, ih rest hlrest, Bool.or_false]
        cases hc : (c == btick) with
        | false => simp [hc]
        | true =>
          have h2 : twoTicks rest = false := by simpa [hc] using hb
          simp [hc, stripFences_twoTicks rest h2]
      | true =>
        have hc : c = btick := by
          have := (Bool.and_eq_true _ _).mp hb
          simpa using this.1
        have h2 : twoTicks rest = true := ((Bool.and_eq_true _ _).mp hb).2
        obtain ⟨r2, hr2⟩ := twoTicks_eq_true h2
        subst hr2
        subst hc
        have hlr2 : r2.length ≤ n - 2 := by
          simp only [List.length_cons] at hlrest
          omega
        cases hj : json4 r2 with
        | true =>
          obtain ⟨r3, hr3⟩ := json4_eq_true hj
          subst hr3
          rw [stripFences_trip_json]
          apply ih
          simp only [List.length_cons] at hlr2 ⊢
          omega
        | false =>
          rw [stripFences_trip_nojson r2 hj]
          exact ih r2 (by omega)

/-- The fence-removal step leaves no three consecutive backticks behind. -/
theorem stripFences_noTriple (cs : List Char) : hasTicks3 (stripFences cs) = false :=
  stripFences_noTriple_aux cs.length cs le_rfl

/-! ### Strings and paths -/

theorem data_append (a b : String) : (a ++ b).data = a.data ++ b.data := by
  cases a
  cases b
  rfl

theorem string_eq_of_data {a b : String} (h : a.data = b.data) : a = b := by
  cases a
  cases b
  exact congrArg String.mk h

theorem append_ne_of_ne {a b : String} (c : String) (h : a ≠ b) : a ++ c ≠ b ++ c := by
  intro he
  apply h
  apply string_eq_of_data
  have := congrArg String.data he
  rw [data_append, data_append] at this
  exact List.append_cancel_right this

theorem pjoin_output (b : String) (hb : ('/' : Char) ∉ b.data) :
    pjoin "output" b = "output/" ++ b := by
  unfold pjoin
  have h1 : ¬ (b.data.take 1 = ['/']) := by
    rcases hd : b.data with _ | ⟨c, r⟩
    · simp
    · intro hc
      simp only [List.take_succ_cons, List.take_zero] at hc
      have : c = '/' := by simpa using hc
      rw [hd] at hb
      exact hb (this ▸ List.mem_cons_self c r)
  rw [if_neg h1, if_neg (by decide)]
  rfl

theorem afterLastSlash_append (pre x : List Char) (hx : ('/' : Char) ∉ x) :
    afterLastSlash (pre ++ '/' :: x) = x := by
  induction pre with
  | nil => simp [afterLastSlash, hx]
  | cons c pre ih =>
    have hmem : '/' ∈ (pre ++ '/' :: x) := by simp
    simp [afterLastSlash, hmem, ih]

theorem basename_pjoin_output (b : String) (hb : ('/' : Char) ∉ b.data) :
    basename (pjoin "output" b) = b := by
  rw [pjoin_output b hb]
  unfold basename
  have hdata : ("output/" ++ b).data = "output".data ++ '/' :: b.data := by
    rw [data_append, show ("output/" : String).data = "output".data ++ ['/'] from by decide,
      List.append_assoc]
    rfl
  rw [hdata, afterLastSlash_append _ _ hb]

theorem noslash_append {s t : String} (hs : ('/' : Char) ∉ s.data)
    (ht : ('/' : Char) ∉ t.data) : ('/' : Char) ∉ (s ++ t).data := by
  rw [data_append]
  simp [hs, ht]

theorem noslash_suffix : ('/' : Char) ∉ ("_formatted.pdf" : String).data := by decide

/-! ### Behaviour of the per-file loop -/

theorem bind_ok_eq {ε α β : Type} (a : α) (k : α → Except ε β) :
    (Except.ok a : Except ε α) >>= k = k a := rfl

theorem bind_err_eq {ε α β : Type} (e : ε) (k : α → Except ε β) :
    (Except.error e : Except ε α) >>= k = Except.error e := rfl

/-- A file whose skip test comes out true contributes nothing: the loop on it
and the rest equals the loop on the rest alone. -/
theorem processFiles_cons_skip (env : Env) (n c : String) (post : List UFile) (f : UFile)
    (fs : FS) (text : String)
    (hload : load_resume env (pjoin "uploads" f.filename) = Except.ok text)
    (hskip : pyContainsStrError (convert_to_json env text) = Except.ok true) :
    processFiles env n c fs (f :: post) = processFiles env n c fs post := by
  simp only [processFiles, hload, bind_ok_eq, hskip, if_true]

/-- A skipped file in the middle of the list leaves the whole loop's result
unchanged. -/
theorem processFiles_middle_skip (env : Env) (n c : String) (f : UFile) (text : String)
    (hload : load_resume env (pjoin "uploads" f.filename) = Except.ok text)
    (hskip : pyContainsStrError (convert_to_json env text) = Except.ok true) :
    ∀ pre post : List UFile, ∀ fs : FS,
      processFiles env n c fs (pre ++ f :: post) = processFiles env n c fs (pre ++ post) := by
  intro pre
  induction pre with
  | nil =>
    intro post fs
    exact processFiles_cons_skip env n c post f fs text hload hskip
  | cons g pre ih =>
    intro post fs
    simp only [List.cons_append, processFiles]
    cases hl : load_resume env (pjoin "uploads" g.filename) with
    | error e => rw [bind_err_eq, bind_err_eq]
    | ok t =>
      rw [bind_ok_eq, bind_ok_eq]
      cases hp : pyContainsStrError (convert_to_json env t) with
      | error e => rw [bind_err_eq, bind_err_eq]
      | ok b =>
        rw [bind_ok_eq, bind_ok_eq]
        cases b with
        | true => simpa using ih post fs
        | false =>
          simp only [Bool.false_eq_true, if_false, List.append_eq]
          rw [ih post]

/-- When every file of the list loads and converts to a JSON object, the loop
succeeds and records exactly the output paths of the non-skipped files, in
order. -/
theorem processFiles_paths (env : Env) (n c : String) :
    ∀ l : List UFile, (∀ g ∈ l, ∃ kvs, fileJson env g = Except.ok (Json.obj kvs)) →
    ∀ fs : FS, ∃ fs', processFiles env n c fs l =
      Except.ok (fs', l.filterMap
        (fun g => if producesB env g then some (outPath g) else none)) := by
  intro l
  induction l with
  | nil => exact fun _ fs => ⟨fs, rfl⟩
  | cons g rest ih =>
    intro h fs
    obtain ⟨kvs, hg⟩ := h g (List.mem_cons_self g rest)
    cases hl : load_resume env (pjoin "uploads" g.filename) with
    | error e => rw [fileJson, hl] at hg; simp [Except.map] at hg
    | ok t =>
      rw [fileJson, hl] at hg
      have hconv : convert_to_json env t = Json.obj kvs := by
        simpa [Except.map] using hg
      cases hb : kvs.any (fun kv => kv.1 == "error") with
      | true =>
        have hprod : producesB env g = false := by
          simp [producesB, fileJson, hl, Except.map, hconv, pyContainsStrError, hb]
        rw [processFiles_cons_skip env n c rest g fs t hl
          (by rw [hconv]; simp [pyContainsStrError, hb])]
        obtain ⟨fs', hrec⟩ := ih (fun x hx => h x (List.mem_cons_of_mem g hx)) fs
        exact ⟨fs', by rw [hrec]; simp [List.filterMap_cons, hprod]⟩
      | false =>
        have hprod : producesB env g = true := by
          simp [producesB, fileJson, hl, Except.map, hconv, pyContainsStrError, hb]
        obtain ⟨fs', hrec⟩ := ih (fun x hx => h x (List.mem_cons_of_mem g hx))
          (generate_company_resume fs (convert_to_json env t) n c g.filename).1
        refine ⟨fs', ?_⟩
        simp only [processFiles, hl, bind_ok_eq, hconv, pyContainsStrError, hb,
          Bool.false_eq_true, if_false]
        rw [← hconv, hrec, bind_ok_eq]
        simp [List.filterMap_cons, hprod, outPath, stemOf, generate_company_resume]

/-- Everything a successful loop writes carries the name and contact it was
called with, and every recorded path was written. -/
theorem processFiles_writes (env : Env) (n c : String) :
    ∀ l : List UFile, ∀ fs fs' : FS, ∀ ps : List String,
      processFiles env n c fs l = Except.ok (fs', ps) →
      (∀ p, fs' p = fs p ∨ ∃ d, fs' p = some (PdfDoc.mk n c d)) ∧
      (∀ p ∈ ps, ∃ d, fs' p = some (PdfDoc.mk n c d)) := by
  intro l
  induction l with
  | nil =>
    intro fs fs' ps h
    simp only [processFiles, Except.ok.injEq, Prod.mk.injEq] at h
    refine ⟨fun p => Or.inl (by rw [← h.1]), ?_⟩
    intro p hp
    rw [← h.2] at hp
    simp at hp
  | cons g rest ih =>
    intro fs fs' ps h
    simp only [processFiles] at h
    cases hl : load_resume env (pjoin "uploads" g.filename) with
    | error e => rw [hl, bind_err_eq] at h; cases h
    | ok t =>
      rw [hl, bind_ok_eq] at h
      cases hp : pyContainsStrError (convert_to_json env t) with
      | error e => rw [hp, bind_err_eq] at h; cases h
      | ok b =>
        rw [hp, bind_ok_eq] at h
        cases b with
        | true =>
          rw [if_pos rfl] at h
          exact ih fs fs' ps h
        | false =>
          simp only [Bool.false_eq_true, if_false] at h
          cases hr : processFiles env n c
              (generate_company_resume fs (convert_to_json env t) n c g.filename).1 rest with
          | error e => rw [hr, bind_err_eq] at h; cases h
          | ok r =>
            rw [hr, bind_ok_eq] at h
            obtain ⟨hfs', hps⟩ : r.1 = fs' ∧
                (generate_company_resume fs (convert_to_json env t) n c g.filename).2 :: r.2 = ps := by
              simpa [Prod.ext_iff] using h
            obtain ⟨ihall, ihmem⟩ := ih _ r.1 r.2 (by rw [hr])
            subst hfs'
            constructor
            · intro p
              rcases ihall p with hsame | hnew
              · rw [hsame]
                simp only [generate_company_resume]
                by_cases hpp : p = pjoin "output" ((splitext g.filename).1 ++ "_formatted.pdf")
                · exact Or.inr ⟨convert_to_json env t, by simp [hpp]⟩
                · exact Or.inl (by simp [hpp])
              · exact Or.inr hnew
            · intro p hpmem
              rw [← hps] at hpmem
              rcases List.mem_cons.mp hpmem with hhead | htail
              · subst hhead
                rcases ihall _ with hsame | hnew
                · refine ⟨convert_to_json env t, ?_⟩
                  rw [hsame]
                  simp [generate_company_resume]
                · exact hnew
              · exact ihmem _ htail

/-- A file whose loading raises aborts the whole loop with that exception,
provided the files before it went through. -/
theorem processFiles_middle_error (env : Env) (n c : String) (f : UFile) (e : PyError)
    (hload : load_resume env (pjoin "uploads" f.filename) = Except.error e) :
    ∀ pre post : List UFile, ∀ fs : FS, ∀ s : FS × List String,
      processFiles env n c fs pre = Except.ok s →
      processFiles env n c fs (pre ++ f :: post) = Except.error e := by
  intro pre
  induction pre with
  | nil =>
    intro post fs s h
    simp only [List.nil_append, processFiles, hload, bind_err_eq]
  | cons g pre ih =>
    intro post fs s h
    simp only [processFiles, List.cons_append] at h ⊢
    cases hl : load_resume env (pjoin "uploads" g.filename) with
    | error e2 => rw [hl, bind_err_eq] at h; cases h
    | ok t =>
      rw [hl] at h
      rw [bind_ok_eq] at h ⊢
      cases hc : pyContainsStrError (convert_to_json env t) with
      | error e2 => rw [hc, bind_err_eq] at h; cases h
      | ok b =>
        rw [hc] at h
        rw [bind_ok_eq] at h ⊢
        cases b with
        | true =>
          rw [if_pos rfl] at h ⊢
          exact ih post fs s h
        | false =>
          simp only [Bool.false_eq_true, if_false, List.append_eq] at h ⊢
          cases hr : processFiles env n c
              (generate_company_resume fs (convert_to_json env t) n c g.filename).1 pre with
          | error e2 => rw [hr, bind_err_eq] at h; cases h
          | ok r =>
            rw [ih post _ r hr, bind_err_eq]

/-! ### Concrete instances used to witness the theorems -/

/-- The empty output directory. -/
def fs0 : FS := fun _ => none

/-- A world where every model response parses to a plain JSON object. -/
def envOk : Env :=
  Env.mk (fun _ => ["Page one", "Page two"]) (fun _ => ["Para"])
    (fun _ => "```json ok```") (fun _ => some (Json.obj [("name", Json.str "X")]))

/-- A world where no model response parses as JSON. -/
def envBad : Env :=
  Env.mk (fun _ => ["txt"]) (fun _ => ["txt"])
    (fun _ => "```json nope```") (fun _ => none)

/-- A world where every model response parses to a JSON object carrying an
"error" key. -/
def envErrKey : Env :=
  Env.mk (fun _ => ["txt"]) (fun _ => ["txt"])
    (fun _ => "x") (fun _ => some (Json.obj [("error", Json.str "boom")]))

/-- The document rendered for file a.pdf by envOk under default form fields. -/
def pdfA : PdfDoc :=
  PdfDoc.mk "Candidate" "example@email.com" (Json.obj [("name", Json.str "X")])

/-- The output directory after envOk processes a.pdf from fs0. -/
def fsA : FS := fun p => if p = "output/a_formatted.pdf" then some pdfA else none

/-! ### Claims -/

/-- C3: when the request's file list is empty, the upload handler returns
HTTP 400 with body containing the error "No files uploaded", and when the
file list is non-empty any normal return from the handler carries status 200,
so the 400 of this check never fires. -/
theorem upload_resume_empty_400 (env : Env) (fs : FS) (req : Request) :
    (req.files = [] →
      upload_resume env fs req =
        Except.ok (fs, Response.mk 400 (Body.jsonBody
          (Json.obj [("error", Json.str "No files uploaded")])))) ∧
    (req.files ≠ [] → ∀ fs' r, upload_resume env fs req = Except.ok (fs', r) →
      r.status = 200) := by
  constructor
  · intro h
    simp [upload_resume, h]
  · intro h fs' r hu
    have hne : req.files.isEmpty = false := by
      cases hf : req.files with
      | nil => exact absurd hf h
      | cons a l => rfl
    unfold upload_resume at hu
    rw [hne] at hu
    simp only [Bool.false_eq_true, if_false] at hu
    cases hr : processFiles env (formGet req.form "name" "Candidate")
        (formGet req.form "contact" "example@email.com") fs req.files with
    | error e => rw [hr, bind_err_eq] at hu; cases hu
    | ok p =>
      rw [hr, bind_ok_eq] at hu
      have hpair := Except.ok.inj hu
      simp only [Prod.mk.injEq] at hpair
      rw [← hpair.2]

theorem upload_resume_empty_400_witness :
    upload_resume envOk fs0 (Request.mk [] []) =
      Except.ok (fs0, Response.mk 400 (Body.jsonBody
        (Json.obj [("error", Json.str "No files uploaded")]))) ∧
    (Response.mk 200 (Body.zipBody "Formatted_Resumes.zip"
      [("a_formatted.pdf", some pdfA)])).status = 200 := by
  constructor
  · exact (upload_resume_empty_400 envOk fs0 (Request.mk [] [])).1 rfl
  · exact (upload_resume_empty_400 envOk fs0
      (Request.mk [UFile.mk "a.pdf"] [])).2 (by simp) fsA
      (Response.mk 200 (Body.zipBody "Formatted_Resumes.zip"
        [("a_formatted.pdf", some pdfA)])) (by rfl)

/-- C5: convert_to_json strips the markdown fences from the response (the
cleaned text contains no triple backtick) and parses the cleaned text exactly
once: on success it returns the parsed value unchanged (no schema check), on
failure the sentinel object whose "raw" field carries the unmodified
response. -/
theorem convert_to_json_single_parse (env : Env) (t : String) :
    (∀ j, env.jloads (cleanedResponse (env.llm t)) = some j → convert_to_json env t = j) ∧
    (env.jloads (cleanedResponse (env.llm t)) = none →
      convert_to_json env t =
        Json.obj [("error", Json.str "Invalid JSON from LLM"),
          ("raw", Json.str (env.llm t))]) ∧
    hasTicks3 (stripFences (env.llm t).data) = false := by
  refine ⟨?_, ?_, stripFences_noTriple _⟩
  · intro j hj
    simp [convert_to_json, hj]
  · intro hj
    simp [convert_to_json, hj]

theorem convert_to_json_single_parse_witness :
    convert_to_json envBad "resume text" =
      Json.obj [("error", Json.str "Invalid JSON from LLM"),
        ("raw", Json.str "```json nope```")] ∧
    hasTicks3 (stripFences (envBad.llm "resume text").data) = false := by
  constructor
  · exact (convert_to_json_single_parse envBad "resume text").2.1 rfl
  · exact (convert_to_json_single_parse envBad "resume text").2.2

/-- C6: for a path whose (lowercased) extension is .pdf, .docx or .doc,
load_resume returns the loaded pages/paragraphs joined by newlines. -/
theorem load_resume_joins_pages (env : Env) (p : String) :
    (extOf p = ".pdf" →
      load_resume env p = Except.ok (String.intercalate "\n" (env.pdfPages p))) ∧
    ((extOf p = ".docx" ∨ extOf p = ".doc") →
      load_resume env p = Except.ok (String.intercalate "\n" (env.docxPages p))) := by
  constructor
  · intro h
    simp [load_resume, selectLoader, h, bind_ok_eq]
  · intro h
    have hne : extOf p ≠ ".pdf" := by
      rcases h with h | h <;> rw [h] <;> decide
    simp [load_resume, selectLoader, hne, h, bind_ok_eq]

theorem load_resume_joins_pages_witness :
    extOf "uploads/a.pdf" = ".pdf" ∧
    load_resume envOk "uploads/a.pdf" = Except.ok "Page one\nPage two" ∧
    extOf "b.DOCX" = ".docx" ∧
    load_resume envOk "b.DOCX" = Except.ok "Para" := by
  refine ⟨by decide, ?_, by decide, ?_⟩
  · exact (load_resume_joins_pages envOk "uploads/a.pdf").1 (by decide)
  · exact (load_resume_joins_pages envOk "b.DOCX").2 (Or.inl (by decide))

theorem str_append_assoc (a b c : String) : a ++ b ++ c = a ++ (b ++ c) := by
  apply string_eq_of_data
  rw [data_append, data_append, data_append, data_append, List.append_assoc]

/-- C7: generating a second PDF for the same filename writes to the same
output path output/(stem)_formatted.pdf, overwrites the first document, and
leaves every other output path unchanged. -/
theorem generate_overwrites_same_name (fs : FS) (d1 d2 : Json)
    (n1 c1 n2 c2 fname : String)
    (hs : ('/' : Char) ∉ ((splitext fname).1).data) :
    (generate_company_resume (generate_company_resume fs d1 n1 c1 fname).1
        d2 n2 c2 fname).2 = (generate_company_resume fs d1 n1 c1 fname).2 ∧
    (generate_company_resume fs d1 n1 c1 fname).2 =
      "output/" ++ (splitext fname).1 ++ "_formatted.pdf" ∧
    (generate_company_resume (generate_company_resume fs d1 n1 c1 fname).1
        d2 n2 c2 fname).1 (generate_company_resume fs d1 n1 c1 fname).2 =
      some (PdfDoc.mk n2 c2 d2) ∧
    ∀ q, q ≠ (generate_company_resume fs d1 n1 c1 fname).2 →
      (generate_company_resume (generate_company_resume fs d1 n1 c1 fname).1
        d2 n2 c2 fname).1 q = fs q := by
  refine ⟨rfl, ?_, ?_, ?_⟩
  · rw [str_append_assoc]
    exact pjoin_output _ (noslash_append hs noslash_suffix)
  · simp [generate_company_resume]
  · intro q hq
    simp only [generate_company_resume] at hq ⊢
    rw [if_neg hq, if_neg hq]

theorem generate_overwrites_same_name_witness :
    (generate_company_resume (generate_company_resume fs0 Json.null "N1" "C1" "a.pdf").1
        (Json.bool true) "N2" "C2" "a.pdf").2 =
      (generate_company_resume fs0 Json.null "N1" "C1" "a.pdf").2 ∧
    (generate_company_resume fs0 Json.null "N1" "C1" "a.pdf").2 =
      "output/" ++ "a" ++ "_formatted.pdf" ∧
    (generate_company_resume (generate_company_resume fs0 Json.null "N1" "C1" "a.pdf").1
        (Json.bool true) "N2" "C2" "a.pdf").1
        (generate_company_resume fs0 Json.null "N1" "C1" "a.pdf").2 =
      some (PdfDoc.mk "N2" "C2" (Json.bool true)) ∧
    (generate_company_resume (generate_company_resume fs0 Json.null "N1" "C1" "a.pdf").1
        (Json.bool true) "N2" "C2" "a.pdf").1 "output/b_formatted.pdf" =
      fs0 "output/b_formatted.pdf" := by
  have h := generate_overwrites_same_name fs0 Json.null (Json.bool true)
    "N1" "C1" "N2" "C2" "a.pdf" (by decide)
  exact ⟨h.1, h.2.1, h.2.2.1, h.2.2.2 "output/b_formatted.pdf" (by decide)⟩

/-- C10: the loader dispatch of load_resume depends only on the lowercased
extension, so a path ending in .PDF (or .Docx, .DOC, ...) is accepted and
routed to the same loader class as its lowercase counterpart. -/
theorem selectLoader_case_insensitive (p1 p2 : String)
    (h : pyLower (splitext p1).2 = pyLower (splitext p2).2) :
    selectLoader p1 = selectLoader p2 ∧
    (pyLower (splitext p1).2 = ".pdf" → selectLoader p1 = Except.ok LoaderKind.pypdf) ∧
    ((pyLower (splitext p1).2 = ".docx" ∨ pyLower (splitext p1).2 = ".doc") →
      selectLoader p1 = Except.ok LoaderKind.docx2txt) := by
  refine ⟨?_, ?_, ?_⟩
  · simp only [selectLoader, extOf, h]
  · intro h1
    simp [selectLoader, extOf, h1]
  · intro h1
    have hne : pyLower (splitext p1).2 ≠ ".pdf" := by
      rcases h1 with h1 | h1 <;> rw [h1] <;> decide
    simp [selectLoader, extOf, hne, h1]

/-- Shared core of the two skip claims: once the skip test of a file comes out
true, the handler's result is the result for the request without the file, and
an empty zip results when it was the only file. -/
theorem upload_skip_core (env : Env) (fs : FS) (form : List (String × String))
    (pre post : List UFile) (f : UFile) (text : String)
    (hload : load_resume env (pjoin "uploads" f.filename) = Except.ok text)
    (hskip : pyContainsStrError (convert_to_json env text) = Except.ok true) :
    (pre ++ post ≠ [] →
      upload_resume env fs (Request.mk (pre ++ f :: post) form) =
        upload_resume env fs (Request.mk (pre ++ post) form)) ∧
    (pre = [] → post = [] →
      upload_resume env fs (Request.mk (pre ++ f :: post) form) =
        Except.ok (fs, Response.mk 200 (Body.zipBody "Formatted_Resumes.zip" []))) := by
  constructor
  · intro hne
    have h1 : (pre ++ f :: post).isEmpty = false := by cases pre <;> rfl
    have h2 : (pre ++ post).isEmpty = false := by
      cases hpp : pre ++ post with
      | nil => exact absurd hpp hne
      | cons a l => rfl
    simp only [upload_resume, h1, h2, Bool.false_eq_true, if_false]
    rw [processFiles_middle_skip env _ _ f text hload hskip pre post fs]
  · intro hp1 hp2
    subst hp1
    subst hp2
    have h1 : ([] ++ f :: ([] : List UFile)).isEmpty = false := rfl
    simp only [upload_resume, h1, Bool.false_eq_true, if_false]
    rw [List.nil_append, processFiles_cons_skip env _ _ [] f fs text hload hskip]
    rfl

/-- C2: a file whose model response does not parse as JSON is skipped
silently: the handler's answer is exactly the answer for the same request
without that file, so no PDF entry for it appears, no per-file error reaches
the caller, and the remaining files are still processed; if it was the only
file the caller gets an empty zip. -/
theorem upload_skips_unparsable (env : Env) (fs : FS) (form : List (String × String))
    (pre post : List UFile) (f : UFile) (text : String)
    (hload : load_resume env (pjoin "uploads" f.filename) = Except.ok text)
    (hparse : env.jloads (cleanedResponse (env.llm text)) = none) :
    (pre ++ post ≠ [] →
      upload_resume env fs (Request.mk (pre ++ f :: post) form) =
        upload_resume env fs (Request.mk (pre ++ post) form)) ∧
    (pre = [] → post = [] →
      upload_resume env fs (Request.mk (pre ++ f :: post) form) =
        Except.ok (fs, Response.mk 200 (Body.zipBody "Formatted_Resumes.zip" []))) := by
  have hsent : convert_to_json env text =
      Json.obj [("error", Json.str "Invalid JSON from LLM"),
        ("raw", Json.str (env.llm text))] := by
    simp [convert_to_json, hparse]
  exact upload_skip_core env fs form pre post f text hload (by rw [hsent]; rfl)

theorem upload_skips_unparsable_witness :
    upload_resume envBad fs0 (Request.mk [UFile.mk "a.pdf", UFile.mk "b.pdf"] []) =
      upload_resume envBad fs0 (Request.mk [UFile.mk "b.pdf"] []) ∧
    upload_resume envBad fs0 (Request.mk [UFile.mk "a.pdf"] []) =
      Except.ok (fs0, Response.mk 200 (Body.zipBody "Formatted_Resumes.zip" [])) := by
  constructor
  · exact (upload_skips_unparsable envBad fs0 [] [] [UFile.mk "b.pdf"]
      (UFile.mk "a.pdf") "txt" rfl rfl).1 (by simp)
  · exact (upload_skips_unparsable envBad fs0 [] [] []
      (UFile.mk "a.pdf") "txt" rfl rfl).2 rfl rfl

/-- C8: the skip test is membership of the key "error" in the parsed result,
not parse failure itself: a file whose response is valid JSON whose top-level
object contains an "error" key is skipped exactly like a parse failure. -/
theorem upload_skips_valid_json_with_error_key (env : Env) (fs : FS)
    (form : List (String × String)) (pre post : List UFile) (f : UFile) (text : String)
    (kvs : List (String × Json))
    (hload : load_resume env (pjoin "uploads" f.filename) = Except.ok text)
    (hparse : env.jloads (cleanedResponse (env.llm text)) = some (Json.obj kvs))
    (hkey : kvs.any (fun kv => kv.1 == "error") = true) :
    (pre ++ post ≠ [] →
      upload_resume env fs (Request.mk (pre ++ f :: post) form) =
        upload_resume env fs (Request.mk (pre ++ post) form)) ∧
    (pre = [] → post = [] →
      upload_resume env fs (Request.mk (pre ++ f :: post) form) =
        Except.ok (fs, Response.mk 200 (Body.zipBody "Formatted_Resumes.zip" []))) := by
  have hconv : convert_to_json env text = Json.obj kvs := by
    simp [convert_to_json, hparse]
  exact upload_skip_core env fs form pre post f text hload
    (by rw [hconv]; simp [pyContainsStrError, hkey])

theorem upload_skips_valid_json_with_error_key_witness :
    upload_resume envErrKey fs0 (Request.mk [UFile.mk "a.pdf", UFile.mk "b.pdf"] []) =
      upload_resume envErrKey fs0 (Request.mk [UFile.mk "b.pdf"] []) ∧
    upload_resume envErrKey fs0 (Request.mk [UFile.mk "a.pdf"] []) =
      Except.ok (fs0, Response.mk 200 (Body.zipBody "Formatted_Resumes.zip" [])) := by
  constructor
  · exact (upload_skips_valid_json_with_error_key envErrKey fs0 [] [] [UFile.mk "b.pdf"]
      (UFile.mk "a.pdf") "txt" [("error", Json.str "boom")] rfl rfl rfl).1 (by simp)
  · exact (upload_skips_valid_json_with_error_key envErrKey fs0 [] [] []
      (UFile.mk "a.pdf") "txt" [("error", Json.str "boom")] rfl rfl rfl).2 rfl rfl

theorem selectLoader_case_insensitive_witness :
    selectLoader "a.PDF" = selectLoader "a.pdf" ∧
    selectLoader "a.PDF" = Except.ok LoaderKind.pypdf ∧
    selectLoader "b.DOC" = Except.ok LoaderKind.docx2txt := by
  refine ⟨(selectLoader_case_insensitive "a.PDF" "a.pdf" (by decide)).1,
    (selectLoader_case_insensitive "a.PDF" "a.pdf" (by decide)).2.1 (by decide),
    (selectLoader_case_insensitive "b.DOC" "b.doc" (by decide)).2.2 (Or.inr (by decide))⟩

/-- C4: for any path whose lowercased extension is not .pdf, .docx or .doc,
load_resume raises ValueError "Unsupported file type."; the upload handler
does not catch it, so the whole request fails with that exception (a server
error) and no PDF is produced for the file. -/
theorem load_resume_unsupported_raises (env : Env) (fs : FS)
    (form : List (String × String)) (p : String) (pre post : List UFile) (f : UFile)
    (s : FS × List String)
    (hp1 : extOf p ≠ ".pdf") (hp2 : extOf p ≠ ".docx") (hp3 : extOf p ≠ ".doc")
    (hf1 : extOf (pjoin "uploads" f.filename) ≠ ".pdf")
    (hf2 : extOf (pjoin "uploads" f.filename) ≠ ".docx")
    (hf3 : extOf (pjoin "uploads" f.filename) ≠ ".doc")
    (hpre : processFiles env (formGet form "name" "Candidate")
      (formGet form "contact" "example@email.com") fs pre = Except.ok s) :
    load_resume env p = Except.error (PyError.valueError "Unsupported file type.") ∧
    upload_resume env fs (Request.mk (pre ++ f :: post) form) =
      Except.error (PyError.valueError "Unsupported file type.") := by
  have hgen : ∀ q : String, extOf q ≠ ".pdf" → extOf q ≠ ".docx" → extOf q ≠ ".doc" →
      load_resume env q = Except.error (PyError.valueError "Unsupported file type.") := by
    intro q h1 h2 h3
    have hor : ¬ (extOf q = ".docx" ∨ extOf q = ".doc") := fun hh => hh.elim h2 h3
    simp [load_resume, selectLoader, h1, hor, bind_err_eq]
  refine ⟨hgen p hp1 hp2 hp3, ?_⟩
  have h1 : (pre ++ f :: post).isEmpty = false := by cases pre <;> rfl
  simp only [upload_resume, h1, Bool.false_eq_true, if_false]
  rw [processFiles_middle_error env _ _ f _ (hgen _ hf1 hf2 hf3) pre post fs s hpre,
    bind_err_eq]

theorem load_resume_unsupported_raises_witness :
    load_resume envOk "a.txt" = Except.error (PyError.valueError "Unsupported file type.") ∧
    upload_resume envOk fs0 (Request.mk [UFile.mk "b.txt"] []) =
      Except.error (PyError.valueError "Unsupported file type.") :=
  load_resume_unsupported_raises envOk fs0 [] "a.txt" [] [] (UFile.mk "b.txt") (fs0, [])
    (by decide) (by decide) (by decide) (by decide) (by decide) (by decide) rfl

/-- C9: the handler defaults each missing form field independently: when the
form lacks the name field every document the renderer produced for the request
carries the name "Candidate", and when it lacks the contact field every such
document carries the contact "example@email.com" (no condition on the other
field). -/
theorem upload_defaults_name_contact (env : Env) (fs : FS) (files : List UFile)
    (form : List (String × String)) (fs' : FS) (nm : String)
    (entries : List (String × Option PdfDoc)) (pr : String × Option PdfDoc) (d : PdfDoc)
    (hu : upload_resume env fs (Request.mk files form) =
      Except.ok (fs', Response.mk 200 (Body.zipBody nm entries)))
    (hpr : pr ∈ entries) (hd : pr.2 = some d) :
    (form.lookup "name" = none → d.name = "Candidate") ∧
    (form.lookup "contact" = none → d.contact = "example@email.com") := by
  simp only [upload_resume] at hu
  cases hfe : files.isEmpty with
  | true => rw [hfe] at hu; simp at hu
  | false =>
    rw [hfe] at hu
    simp only [Bool.false_eq_true, if_false] at hu
    cases hr : processFiles env (formGet form "name" "Candidate")
        (formGet form "contact" "example@email.com") fs files with
    | error e => rw [hr, bind_err_eq] at hu; cases hu
    | ok r =>
      rw [hr, bind_ok_eq] at hu
      have hinj := Except.ok.inj hu
      simp only [Prod.mk.injEq, Response.mk.injEq, Body.zipBody.injEq, true_and] at hinj
      obtain ⟨hfs', hnm, hent⟩ := hinj
      rw [← hent] at hpr
      obtain ⟨q, hq, hpq⟩ := List.mem_map.mp hpr
      obtain ⟨dd, hdd⟩ := (processFiles_writes env (formGet form "name" "Candidate")
        (formGet form "contact" "example@email.com") files fs r.1 r.2 (by rw [hr])).2 q hq
      rw [← hpq] at hd
      simp only at hd
      rw [hdd] at hd
      have hdeq := Option.some.inj hd
      rw [← hdeq]
      constructor
      · intro hn
        simp [formGet, hn]
      · intro hc
        simp [formGet, hc]

/-- The document rendered for a.pdf by envOk when only the contact field was
sent, and the output directory after that request. -/
def pdfContactGiven : PdfDoc :=
  PdfDoc.mk "Candidate" "c@mail" (Json.obj [("name", Json.str "X")])

def fsContactGiven : FS :=
  fun p => if p = "output/a_formatted.pdf" then some pdfContactGiven else none

/-- The document rendered for a.pdf by envOk when only the name field was
sent, and the output directory after that request. -/
def pdfNameGiven : PdfDoc :=
  PdfDoc.mk "Alice" "example@email.com" (Json.obj [("name", Json.str "X")])

def fsNameGiven : FS :=
  fun p => if p = "output/a_formatted.pdf" then some pdfNameGiven else none

theorem upload_defaults_name_contact_witness :
    pdfContactGiven.name = "Candidate" ∧ pdfNameGiven.contact = "example@email.com" := by
  constructor
  · exact (upload_defaults_name_contact envOk fs0 [UFile.mk "a.pdf"]
      [("contact", "c@mail")] fsContactGiven "Formatted_Resumes.zip"
      [("a_formatted.pdf", some pdfContactGiven)]
      ("a_formatted.pdf", some pdfContactGiven) pdfContactGiven
      (by rfl) (by simp) rfl).1 rfl
  · exact (upload_defaults_name_contact envOk fs0 [UFile.mk "a.pdf"]
      [("name", "Alice")] fsNameGiven "Formatted_Resumes.zip"
      [("a_formatted.pdf", some pdfNameGiven)]
      ("a_formatted.pdf", some pdfNameGiven) pdfNameGiven
      (by rfl) (by simp) rfl).2 rfl

theorem length_filter_map_eq {α β : Type} (l : List α) (fm : α → β) (q : β → Bool) :
    ((l.map fm).filter q).length = (l.filter (fun x => q (fm x))).length := by
  induction l with
  | nil => rfl
  | cons x l ih =>
    simp only [List.map_cons, List.filter_cons]
    cases hq : q (fm x) with
    | true => simp [ih]
    | false => simp [ih]

/-- C1 as literally stated is false: here the single uploaded a.pdf has a
supported extension and its model response parses as valid JSON, yet the
returned zip archive contains no entry at all (the valid JSON carries an
"error" key, so the file is skipped). -/
theorem upload_zip_entry_counterexample :
    envErrKey.jloads (cleanedResponse (envErrKey.llm "txt")) =
      some (Json.obj [("error", Json.str "boom")]) ∧
    upload_resume envErrKey fs0 (Request.mk [UFile.mk "a.pdf"] []) =
      Except.ok (fs0, Response.mk 200 (Body.zipBody "Formatted_Resumes.zip" [])) :=
  ⟨rfl, rfl⟩

/-- C1 (amended): in a request where every file loads and converts to a JSON
object and every stem is slash-free, a file whose object carries no "error"
key and whose stem differs from that of every other output-producing file
contributes exactly one zip entry, named (stem)_formatted.pdf. -/
theorem upload_zip_exactly_one_entry (env : Env) (fs : FS)
    (form : List (String × String)) (pre post : List UFile) (f : UFile)
    (kvsf : List (String × Json))
    (hall : ∀ g ∈ pre ++ f :: post, ∃ kvs, fileJson env g = Except.ok (Json.obj kvs))
    (hnos : ∀ g ∈ pre ++ f :: post, ('/' : Char) ∉ (stemOf g).data)
    (hfj : fileJson env f = Except.ok (Json.obj kvsf))
    (hfkey : kvsf.any (fun kv => kv.1 == "error") = false)
    (hstem : ∀ g ∈ pre ++ post, producesB env g = true → stemOf g ≠ stemOf f) :
    ∃ fs' : FS, ∃ entries : List (String × Option PdfDoc),
      upload_resume env fs (Request.mk (pre ++ f :: post) form) =
        Except.ok (fs', Response.mk 200 (Body.zipBody "Formatted_Resumes.zip" entries)) ∧
      (entries.filter
        (fun e => e.1 == stemOf f ++ "_formatted.pdf")).length = 1 := by
  obtain ⟨fs', hrun⟩ := processFiles_paths env (formGet form "name" "Candidate")
    (formGet form "contact" "example@email.com") (pre ++ f :: post) hall fs
  have h1 : (pre ++ f :: post).isEmpty = false := by cases pre <;> rfl
  refine ⟨fs',
    ((pre ++ f :: post).filterMap
      (fun g => if producesB env g then some (outPath g) else none)).map
        (fun p => (basename p, fs' p)), ?_, ?_⟩
  · simp only [upload_resume, h1, Bool.false_eq_true, if_false]
    rw [hrun, bind_ok_eq]
  · rw [length_filter_map_eq]
    show ((((pre ++ f :: post).filterMap
        (fun g => if producesB env g then some (outPath g) else none)).filter
          (fun p => basename p == stemOf f ++ "_formatted.pdf")).length) = 1
    have hpf : producesB env f = true := by
      simp [producesB, hfj, pyContainsStrError, hfkey]
    have hnosf : ('/' : Char) ∉ (stemOf f).data :=
      hnos f (List.mem_append.mpr (Or.inr (List.mem_cons_self f post)))
    have hbf : basename (outPath f) = stemOf f ++ "_formatted.pdf" :=
      basename_pjoin_output _ (noslash_append hnosf noslash_suffix)
    have hother : ∀ g ∈ pre ++ post, ∀ a,
        (if producesB env g then some (outPath g) else none) = some a →
        (basename a == stemOf f ++ "_formatted.pdf") = false := by
      intro g hg a ha
      cases hpg : producesB env g with
      | false => rw [hpg] at ha; simp at ha
      | true =>
        have haeq : a = outPath g := by
          rw [hpg] at ha
          simpa using ha.symm
        subst haeq
        have hgmem : g ∈ pre ++ f :: post := by
          rcases List.mem_append.mp hg with hh | hh
          · exact List.mem_append.mpr (Or.inl hh)
          · exact List.mem_append.mpr (Or.inr (List.mem_cons_of_mem f hh))
        have hbg : basename (outPath g) = stemOf g ++ "_formatted.pdf" :=
          basename_pjoin_output _ (noslash_append (hnos g hgmem) noslash_suffix)
        rw [hbg]
        exact beq_eq_false_iff_ne.mpr (append_ne_of_ne _ (hstem g hg hpg))
    have hconsf : ((f :: post).filterMap
        (fun g => if producesB env g then some (outPath g) else none)) =
        outPath f :: (post.filterMap
          (fun g => if producesB env g then some (outPath g) else none)) := by
      simp [List.filterMap_cons, hpf]
    have hfA : ((pre.filterMap
        (fun g => if producesB env g then some (outPath g) else none)).filter
          (fun p => basename p == stemOf f ++ "_formatted.pdf")) = [] := by
      rw [List.filter_eq_nil_iff]
      intro a ha
      obtain ⟨g, hgmem, hga⟩ := List.mem_filterMap.mp ha
      simp [hother g (List.mem_append.mpr (Or.inl hgmem)) a hga]
    have hfB : ((post.filterMap
        (fun g => if producesB env g then some (outPath g) else none)).filter
          (fun p => basename p == stemOf f ++ "_formatted.pdf")) = [] := by
      rw [List.filter_eq_nil_iff]
      intro a ha
      obtain ⟨g, hgmem, hga⟩ := List.mem_filterMap.mp ha
      simp [hother g (List.mem_append.mpr (Or.inr hgmem)) a hga]
    have hqf : (basename (outPath f) == stemOf f ++ "_formatted.pdf") = true := by
      rw [hbf]
      exact beq_self_eq_true _
    rw [List.filterMap_append, hconsf]
    simp [List.filter_append, List.filter_cons, hfA, hfB, hqf]

theorem upload_zip_exactly_one_entry_witness :
    ∃ fs' : FS, ∃ entries : List (String × Option PdfDoc),
      upload_resume envOk fs0 (Request.mk [UFile.mk "a.pdf"] []) =
        Except.ok (fs', Response.mk 200 (Body.zipBody "Formatted_Resumes.zip" entries)) ∧
      (entries.filter (fun e => e.1 == "a_formatted.pdf")).length = 1 := by
  have h := upload_zip_exactly_one_entry envOk fs0 [] [] [] (UFile.mk "a.pdf")
    [("name", Json.str "X")]
    (by
      intro g hg
      have hgf : g = UFile.mk "a.pdf" := by simpa using hg
      subst hgf
      exact ⟨[("name", Json.str "X")], rfl⟩)
    (by
      intro g hg
      have hgf : g = UFile.mk "a.pdf" := by simpa using hg
      subst hgf
      decide)
    rfl rfl
    (by
      intro g hg
      simp at hg)
  exact h

end ResumeApp
